import Mathlib

/-!
# DreamTimer: the persistent configuration store and the display helper

A shallow embedding of `src/Arduino/ConfigStorage.{h,cpp}` and of the digit
formatting of `src/Arduino/DisplayHelper.cpp` and `src/DreamTimer/DisplayHelper.cpp`.

* The external I2C EEPROM is a map from 16-bit addresses to bytes.  The state
  also carries the list of write transactions issued on the bus, oldest first,
  so that the order of writes of an operation can be stated.
* `uint8_t`, `uint16_t` and `int` values are natural numbers (integers for
  `int`), reduced explicitly where the C++ code converts.
* An Arduino `String` is the list of its bytes (`char` values in `0..255`).
-/

namespace DreamTimer

/-! ## Memory map (`ConfigStorage.h`) -/

/-- Magic byte to check if configured. -/
def EEPROM_ADDR_MAGIC : Nat := 0
/-- WiFi SSID (max 32 chars). -/
def EEPROM_ADDR_SSID : Nat := 10
/-- WiFi password (max 64 chars). -/
def EEPROM_ADDR_PASSWORD : Nat := 100
/-- Timezone string (max 50 chars). -/
def EEPROM_ADDR_TIMEZONE : Nat := 200
/-- Magic number to mark as configured. -/
def CONFIG_MAGIC_BYTE : Nat := 0xAA

/-- Configuration structure: three `String`s, each the list of its bytes. -/
structure DreamClockConfig where
  ssid : List Nat
  password : List Nat
  timezone : List Nat
deriving DecidableEq

/-- The chip and the bus: `mem a` is the byte stored at address `a`, `bus` the
write transactions `(address, data)` issued so far, oldest first. -/
structure EEPROM where
  mem : Nat → Nat
  bus : List (Nat × Nat)

/-- Every `char` of a `String` is one byte. -/
def isText (t : List Nat) : Prop := ∀ b ∈ t, b < 256

instance (t : List Nat) : Decidable (isText t) := by
  unfold isText; infer_instance

/-! ## Low-level EEPROM operations -/

/-- The transaction of `writeByte(uint16_t address, uint8_t data)`: the address is
sent as high byte, low byte, then the data byte; the chip stores it. -/
def writeByte (st : EEPROM) (address data : Nat) : EEPROM :=
  let address := address % 65536
  let data := data % 256
  { mem := fun a => if a = address then data else st.mem a
    bus := st.bus ++ [(address, data)] }

/-- The transaction pair of `uint8_t readByte(uint16_t address)` on a responding
chip: the byte stored at the address. -/
def readByte (st : EEPROM) (address : Nat) : Nat :=
  st.mem (address % 65536) % 256

/-- The conversion `(int)` of an `unsigned int` (32 bits on the target). -/
def toInt (n : Nat) : Int :=
  if n % 4294967296 < 2147483648 then (n % 4294967296 : Nat)
  else ((n % 4294967296 : Nat) : Int) - 4294967296

/-- The value of `uint8_t len = min((int)data.length(), 255)`. -/
def lengthByte (data : List Nat) : Nat :=
  (min (toInt data.length) 255 % 256).toNat

/-- The body of `writeString(uint16_t address, const String& data)`: the length
byte first, then `for (uint8_t i = 0; i < len; i++) writeByte(address + 1 + i, data[i])`.
`data[i]` of a `String` is 0 beyond its end. -/
def writeString (st : EEPROM) (address : Nat) (data : List Nat) : EEPROM :=
  let address := address % 65536
  let len := lengthByte data
  let st := writeByte st address len
  (List.range len).foldl (fun s i => writeByte s (address + 1 + i) (data.getD i 0)) st

/-- The body of `String readString(uint16_t address, uint8_t maxLength)`: the sanity
check on the length byte, then `len` bytes appended one by one to the result. -/
def readString (st : EEPROM) (address maxLength : Nat) : List Nat :=
  let address := address % 65536
  let maxLength := maxLength % 256
  let len := readByte st address
  if len = 0 ∨ len > maxLength then []
  else (List.range len).foldl (fun result i => result ++ [readByte st (address + 1 + i)]) []

/-! ## The store -/

/-- The check `readByte(EEPROM_ADDR_MAGIC) == CONFIG_MAGIC_BYTE`. -/
def isConfigured (st : EEPROM) : Bool :=
  readByte st EEPROM_ADDR_MAGIC == CONFIG_MAGIC_BYTE

/-- The write `writeByte(EEPROM_ADDR_MAGIC, CONFIG_MAGIC_BYTE)`. -/
def markConfigured (st : EEPROM) : EEPROM :=
  writeByte st EEPROM_ADDR_MAGIC CONFIG_MAGIC_BYTE

/-- The write `writeByte(EEPROM_ADDR_MAGIC, 0x00)`. -/
def clearConfig (st : EEPROM) : EEPROM :=
  writeByte st EEPROM_ADDR_MAGIC 0x00

/-- The three field writes of `saveConfig`, without its final `markConfigured()`. -/
def saveFields (st : EEPROM) (config : DreamClockConfig) : EEPROM :=
  let st := writeString st EEPROM_ADDR_SSID config.ssid
  let st := writeString st EEPROM_ADDR_PASSWORD config.password
  writeString st EEPROM_ADDR_TIMEZONE config.timezone

/-- The body of `saveConfig(const DreamClockConfig& config)`: ssid, password,
timezone, then `markConfigured()`. -/
def saveConfig (st : EEPROM) (config : DreamClockConfig) : EEPROM :=
  markConfigured (saveFields st config)

/-- The body of `DreamClockConfig loadConfig()`. -/
def loadConfig (st : EEPROM) : DreamClockConfig :=
  { ssid := readString st EEPROM_ADDR_SSID 32
    password := readString st EEPROM_ADDR_PASSWORD 64
    timezone := readString st EEPROM_ADDR_TIMEZONE 50 }

/-! ## Sample data -/

/-- A chip whose bytes are all `0x00`, with a silent bus. -/
def blankChip : EEPROM := { mem := fun _ => 0, bus := [] }

/-- A chip whose bytes are all `0xAA` (so it reads as configured), with a silent bus. -/
def staleChip : EEPROM := { mem := fun _ => 0xAA, bus := [] }

/-- The record ("HomeWiFi", "secretpass123", "EST5EDT,M3.2.0/2,M11.1.0/2"), as bytes. -/
def homeConfig : DreamClockConfig :=
  { ssid := [72, 111, 109, 101, 87, 105, 70, 105]
    password := [115, 101, 99, 114, 101, 116, 112, 97, 115, 115, 49, 50, 51]
    timezone := [69, 83, 84, 53, 69, 68, 84, 44, 77, 51, 46, 50, 46, 48, 47, 50, 44,
                 77, 49, 49, 46, 49, 46, 48, 47, 50] }

/-- A record whose ssid has 33 bytes ('A' repeated), one more than its maximum. -/
def longSsidConfig : DreamClockConfig :=
  { ssid := List.replicate 33 65, password := [112, 119], timezone := [85, 84, 67] }

/-! ## The writes of an operation, and power loss -/

/-- The memory after the writes `ws` have reached the chip, in order. -/
def replay (mem : Nat → Nat) : List (Nat × Nat) → Nat → Nat
  | [] => mem
  | (a, d) :: ws => replay (fun x => if x = a then d else mem x) ws

/-- The length-prefix encoding of `data` at `address`, as the writes that store it:
the length byte at the first address, then the first `lengthByte data` bytes of
`data` at the following addresses, in order. -/
def stringWrites (address : Nat) (data : List Nat) : List (Nat × Nat) :=
  (address % 65536, lengthByte data) ::
    (List.range (lengthByte data)).map
      (fun i => ((address % 65536 + 1 + i) % 65536, data.getD i 0 % 256))

/-- The writes `saveConfig` issues for its three fields, in order. -/
def fieldWrites (config : DreamClockConfig) : List (Nat × Nat) :=
  stringWrites EEPROM_ADDR_SSID config.ssid ++
    (stringWrites EEPROM_ADDR_PASSWORD config.password ++
      stringWrites EEPROM_ADDR_TIMEZONE config.timezone)

/-- The chip when power is lost during `saveConfig` after exactly the first `k`
field byte writes reached it (all of them when `k` is their number or more), and
before the marker write. -/
def interruptedSave (st : EEPROM) (config : DreamClockConfig) (k : Nat) : EEPROM :=
  { mem := replay st.mem ((fieldWrites config).take k)
    bus := st.bus ++ (fieldWrites config).take k }

/-! ## The three fields, as `saveConfig` and `loadConfig` lay them out -/

/-- The string fields of a record. -/
inductive Field where
  | ssid
  | password
  | timezone
deriving DecidableEq

/-- The address `saveConfig` writes the field at and `loadConfig` reads it from. -/
def Field.address : Field → Nat
  | .ssid => EEPROM_ADDR_SSID
  | .password => EEPROM_ADDR_PASSWORD
  | .timezone => EEPROM_ADDR_TIMEZONE

/-- The `maxLength` that `loadConfig` passes to `readString` for the field. -/
def Field.maxLength : Field → Nat
  | .ssid => 32
  | .password => 64
  | .timezone => 50

/-- The field's text in a record. -/
def Field.get : Field → DreamClockConfig → List Nat
  | .ssid, config => config.ssid
  | .password, config => config.password
  | .timezone, config => config.timezone

/-- A record whose password has 65 bytes and whose timezone has 51, each one more
than its maximum. -/
def longTailConfig : DreamClockConfig :=
  { ssid := [72, 105], password := List.replicate 65 66, timezone := List.replicate 51 67 }

/-- A record whose ssid has 100 bytes: its encoding reaches past address 100. -/
def hugeSsidConfig : DreamClockConfig :=
  { ssid := List.replicate 100 65, password := [], timezone := [] }

/-- The record ("Office", "pw", "UTC"), as bytes. -/
def officeConfig : DreamClockConfig :=
  { ssid := [79, 102, 102, 105, 99, 101], password := [112, 119], timezone := [85, 84, 67] }

/-- The chip left by an earlier, complete `saveConfig` on a blank chip. -/
def configuredChip : EEPROM := saveConfig blankChip homeConfig

/-- Whether an address lies in the field's region: the length byte at the field's
address and the `maxLength` payload bytes after it. -/
def Field.inRegion (f : Field) (x : Nat) : Prop :=
  f.address ≤ x ∧ x ≤ f.address + f.maxLength

/-! ## The bus transactions of `writeByte` and `readByte` -/

/-- EEPROM I2C address. -/
def EEPROM_I2C_ADDRESS : Nat := 0x50

/-- The calls that `writeByte` and `readByte` make on the `Wire` library, and `delay`. -/
inductive WireCall where
  | beginTransmission (device : Nat)
  | write (byte : Nat)
  | endTransmission
  | requestFrom (device : Nat) (quantity : Nat)
  | available
  | read
  | delay (ms : Nat)
deriving DecidableEq

/-- The calls of `writeByte(uint16_t address, uint8_t data)`, in order: the bytes
written are `(uint8_t)(address >> 8)`, `(uint8_t)(address & 0xFF)` and `data`. -/
def writeByteCalls (address data : Nat) : List WireCall :=
  let address := address % 65536
  let data := data % 256
  [.beginTransmission EEPROM_I2C_ADDRESS,
   .write ((address >>> 8) % 256),
   .write ((address &&& 0xFF) % 256),
   .write data,
   .endTransmission,
   .delay 5]

/-- The calls of `readByte(uint16_t address)`, in order; `available` is the answer of
`Wire.available()`, and `Wire.read()` is called only when it is true. -/
def readByteCalls (available : Bool) (address : Nat) : List WireCall :=
  let address := address % 65536
  [.beginTransmission EEPROM_I2C_ADDRESS,
   .write ((address >>> 8) % 256),
   .write ((address &&& 0xFF) % 256),
   .endTransmission,
   .requestFrom EEPROM_I2C_ADDRESS 1,
   .available] ++ (if available then [.read] else [])

/-! ## Reading when the bus may not answer -/

/-- The value of `readByte(uint16_t address)` in full: the byte read from the chip if
`Wire.available()` is true, else 0. -/
def readByteOn (available : Bool) (st : EEPROM) (address : Nat) : Nat :=
  if available then st.mem (address % 65536) % 256 else 0

/-- The body of `readString` over `readByteOn`, with the `readByte` calls it makes:
the result, and the addresses of its `readByte` calls, in order. -/
def readStringOn (available : Bool) (st : EEPROM) (address maxLength : Nat) :
    List Nat × List Nat :=
  let address := address % 65536
  let maxLength := maxLength % 256
  let len := readByteOn available st address
  if len = 0 ∨ len > maxLength then ([], [address])
  else (List.range len).foldl
    (fun acc i => (acc.1 ++ [readByteOn available st (address + 1 + i)],
      acc.2 ++ [(address + 1 + i) % 65536]))
    ([], [address])

/-- The check of `isConfigured()` over `readByteOn`. -/
def isConfiguredOn (available : Bool) (st : EEPROM) : Bool :=
  readByteOn available st EEPROM_ADDR_MAGIC == CONFIG_MAGIC_BYTE

/-- The body of `loadConfig()` over `readStringOn`. -/
def loadConfigOn (available : Bool) (st : EEPROM) : DreamClockConfig :=
  { ssid := (readStringOn available st EEPROM_ADDR_SSID 32).1
    password := (readStringOn available st EEPROM_ADDR_PASSWORD 64).1
    timezone := (readStringOn available st EEPROM_ADDR_TIMEZONE 50).1 }

/-! ## Display helper (`DisplayHelper.cpp`)

The digit encoder `encodeDigit` belongs to the display library and is a parameter.
Each function returns the six bytes of `digits` that it hands to `setSegments`. -/

/-- The conversion of an `int` argument to the `uint8_t` parameter of `encodeDigit`. -/
def toUint8 (d : Int) : Nat := (d % 256).toNat

/-- The body of `setDigitsWithLeadingZeroSuppression(d0, ..., d5)`; each pair is the
byte stored in `digits[i]` and the value of `foundNonZero` after step `i`. -/
def setDigitsWithLeadingZeroSuppression (encodeDigit : Nat → Nat)
    (d0 d1 d2 d3 d4 d5 : Int) : List Nat :=
  let foundNonZero := false
  let s0 := if d0 ≠ 0 then (encodeDigit (toUint8 d0), true) else (0x00, foundNonZero)
  let s1 := if s0.2 = true ∨ d1 ≠ 0 then (encodeDigit (toUint8 d1), true) else (0x00, s0.2)
  let s2 := if s1.2 = true ∨ d2 ≠ 0 then (encodeDigit (toUint8 d2), true) else (0x00, s1.2)
  let s3 := if s2.2 = true ∨ d3 ≠ 0 then (encodeDigit (toUint8 d3), true) else (0x00, s2.2)
  let s4 := if s3.2 = true ∨ d4 ≠ 0 then (encodeDigit (toUint8 d4), true) else (0x00, s3.2)
  [s0.1, s1.1, s2.1, s3.1, s4.1, encodeDigit (toUint8 d5)]

/-- The body of `displayTime12Hour(int hour24, int minute, int second)`; `/` and `%`
of `int` truncate toward zero. -/
def displayTime12Hour (encodeDigit : Nat → Nat) (hour24 minute second : Int) : List Nat :=
  let hour12 := Int.tmod hour24 12
  let hour12 := if hour12 = 0 then 12 else hour12
  let d0 := Int.tmod (Int.tdiv hour12 10) 10
  let d1 := Int.tmod hour12 10
  let d2 := Int.tmod (Int.tdiv minute 10) 10
  let d3 := Int.tmod minute 10
  let d4 := Int.tmod (Int.tdiv second 10) 10
  let d5 := Int.tmod second 10
  setDigitsWithLeadingZeroSuppression encodeDigit d0 d1 d2 d3 d4 d5

/-- The body of `displayTimer(unsigned int hours, unsigned int minutes, unsigned int
seconds)`; `unsigned int` has 32 bits. -/
def displayTimer (encodeDigit : Nat → Nat) (hours minutes seconds : Nat) : List Nat :=
  let hours := hours % 4294967296
  let minutes := minutes % 4294967296
  let seconds := seconds % 4294967296
  let d0 : Int := ((hours / 10) % 10 : Nat)
  let d1 : Int := (hours % 10 : Nat)
  let d2 : Int := ((minutes / 10) % 10 : Nat)
  let d3 : Int := (minutes % 10 : Nat)
  let d4 : Int := ((seconds / 10) % 10 : Nat)
  let d5 : Int := (seconds % 10 : Nat)
  setDigitsWithLeadingZeroSuppression encodeDigit d0 d1 d2 d3 d4 d5

/-- The body of `displayNumber(unsigned long number)`; `unsigned long` has 32 bits. -/
def displayNumber (encodeDigit : Nat → Nat) (number : Nat) : List Nat :=
  let number := number % 4294967296
  let d5 : Int := (number % 10 : Nat)
  let d4 : Int := ((number / 10) % 10 : Nat)
  let d3 : Int := ((number / 100) % 10 : Nat)
  let d2 : Int := ((number / 1000) % 10 : Nat)
  let d1 : Int := ((number / 10000) % 10 : Nat)
  let d0 : Int := ((number / 100000) % 10 : Nat)
  setDigitsWithLeadingZeroSuppression encodeDigit d0 d1 d2 d3 d4 d5

/-- The hour shown by a 12-hour clock at `hour24`: 12 at midnight and noon, else
`hour24 mod 12`. -/
def clockHour (hour24 : Nat) : Nat :=
  if hour24 = 0 ∨ hour24 = 12 then 12 else hour24 % 12

/-- The segment byte `displayString` stores for a character `c` other than NUL
(character codes: 48..57 are the digits, 45 is the dash, 32 the space, 65.. the
capitals and 97.. the small letters). -/
def charSegments (encodeDigit : Nat → Nat) (c : Nat) : Nat :=
  if 48 ≤ c ∧ c ≤ 57 then encodeDigit (c - 48)
  else if c = 45 then 0b01000000
  else if c = 32 then 0x00
  else match c with
    | 65 | 97 => 0b01110111
    | 66 | 98 => 0b01111100
    | 67 | 99 => 0b00111001
    | 68 | 100 => 0b01011110
    | 69 | 101 => 0b01111001
    | 70 | 102 => 0b01110001
    | 71 | 103 => 0b00111101
    | 72 | 104 => 0b01110110
    | 73 | 105 => 0b00110000
    | 74 | 106 => 0b00011110
    | 76 | 108 => 0b00111000
    | 77 | 109 => 0b01010101
    | 78 | 110 => 0b01010100
    | 79 | 111 => 0b00111111
    | 80 | 112 => 0b01110011
    | 82 | 114 => 0b01010000
    | 83 | 115 => 0b01101101
    | 84 | 116 => 0b01111000
    | 85 | 117 => 0b00111110
    | 86 | 118 => 0b00011100
    | 87 | 119 => 0b00101010
    | 89 | 121 => 0b01101110
    | _ => 0x00

/-- The body of `displayString(const char* str)`, from `src/DreamTimer/DisplayHelper.cpp`;
`str i` is the byte `str[i]` of the memory at the pointer, and the loop stores
`digits[i]` for `i` from 0 to 5. -/
def displayString (encodeDigit : Nat → Nat) (str : Nat → Nat) : List Nat :=
  (List.range 6).map (fun i => if str i = 0 then 0x00 else charSegments encodeDigit (str i))

/-- The conversion of an `int` to `unsigned long` (32 bits on the target). -/
def toUnsignedLong (n : Int) : Nat := (n % 4294967296).toNat

/-- The value of `messageIndex` in `flashMessage(messages, int messageCount, unsigned
long currentMillis, unsigned long flashInterval)`: `cycleTime = currentMillis /
flashInterval`, then `cycleTime % messageCount` computed in `unsigned long` and
converted to `int`. A division or remainder by zero has no result. -/
def flashMessageIndex (messageCount : Int) (currentMillis flashInterval : Nat) :
    Option Int :=
  let currentMillis := currentMillis % 4294967296
  let flashInterval := flashInterval % 4294967296
  if flashInterval = 0 then none
  else
    let cycleTime := currentMillis / flashInterval
    let count := toUnsignedLong messageCount
    if count = 0 then none
    else some (toInt (cycleTime % count))

/-- The body of `flashMessage`: `displayString(messages[messageIndex])`. The array
`messages` is the list of its strings, each the memory at its pointer; an index
outside the array has no result. -/
def flashMessage (encodeDigit : Nat → Nat) (messages : List (Nat → Nat))
    (messageCount : Int) (currentMillis flashInterval : Nat) : Option (List Nat) :=
  match flashMessageIndex messageCount currentMillis flashInterval with
  | none => none
  | some messageIndex =>
    if 0 ≤ messageIndex ∧ messageIndex.toNat < messages.length then
      some (displayString encodeDigit (messages.getD messageIndex.toNat (fun _ => 0)))
    else none

/-- The memory "AB", NUL, "CD", NUL, then zeros: the string "AB" with other bytes
after its terminator. -/
def strayBytes : Nat → Nat := fun i => [65, 66, 0, 67, 68, 0].getD i 0

/-- The memory "AB", NUL, then zeros. -/
def cleanBytes : Nat → Nat := fun i => [65, 66, 0].getD i 0

/-- A digit encoder for examples: the segment table of the digits 0 to 9. -/
def sampleEncodeDigit (d : Nat) : Nat :=
  [0x3F, 0x06, 0x5B, 0x4F, 0x66, 0x6D, 0x7D, 0x07, 0x7F, 0x6F].getD d 0

/-- A record whose ssid has 120 bytes, so that its encoding runs over the start of
the password's region, with the password "pw" and the timezone "UTC". -/
def overlapConfig : DreamClockConfig :=
  { ssid := List.replicate 120 65, password := [112, 119], timezone := [85, 84, 67] }

/-! ## Lemmas: bytes and writes -/

theorem writeByte_mem (st : EEPROM) (a d x : Nat) :
    (writeByte st a d).mem x = if x = a % 65536 then d % 256 else st.mem x := rfl

theorem writeByte_bus (st : EEPROM) (a d : Nat) :
    (writeByte st a d).bus = st.bus ++ [(a % 65536, d % 256)] := rfl

theorem replay_append (mem : Nat → Nat) (ws vs : List (Nat × Nat)) :
    replay mem (ws ++ vs) = replay (replay mem ws) vs := by
  induction ws generalizing mem with
  | nil => rfl
  | cons w ws ih => obtain ⟨a, d⟩ := w; exact ih _

theorem replay_single (mem : Nat → Nat) (a d x : Nat) :
    replay mem [(a, d)] x = if x = a then d else mem x := rfl

/-- A write list leaves alone every address it does not target. -/
theorem replay_of_not_mem (ws : List (Nat × Nat)) (mem : Nat → Nat) (x : Nat)
    (h : ∀ w ∈ ws, w.1 ≠ x) : replay mem ws x = mem x := by
  induction ws generalizing mem with
  | nil => rfl
  | cons w ws ih =>
    obtain ⟨a, d⟩ := w
    have ha : a ≠ x := h (a, d) (List.mem_cons_self _ _)
    rw [replay, ih _ (fun w hw => h w (List.mem_cons_of_mem _ hw))]
    simp [Ne.symm ha]

/-- The memory seen at `x` is that of the last write to `x`. -/
theorem replay_last (pre post : List (Nat × Nat)) (mem : Nat → Nat) (x d : Nat)
    (h : ∀ w ∈ post, w.1 ≠ x) : replay mem (pre ++ (x, d) :: post) x = d := by
  rw [replay_append, replay, replay_of_not_mem post _ x h]
  simp

theorem writeByte_mem_eq_replay (st : EEPROM) (a d : Nat) :
    (writeByte st a d).mem = replay st.mem [(a % 65536, d % 256)] := rfl

/-- A counted loop of `writeByte`s issues one write per iteration, in order. -/
theorem writeLoop_run (f g : Nat → Nat) (n : Nat) (st : EEPROM) :
    ((List.range n).foldl (fun s i => writeByte s (f i) (g i)) st).bus =
        st.bus ++ (List.range n).map (fun i => (f i % 65536, g i % 256)) ∧
    ((List.range n).foldl (fun s i => writeByte s (f i) (g i)) st).mem =
        replay st.mem ((List.range n).map (fun i => (f i % 65536, g i % 256))) := by
  induction n with
  | zero => simp [replay]
  | succ n ih =>
    obtain ⟨hb, hm⟩ := ih
    simp only [List.range_succ, List.foldl_append, List.foldl_cons, List.foldl_nil,
      List.map_append, List.map_cons, List.map_nil, writeByte_bus, replay_append,
      writeByte_mem_eq_replay, hb, hm, List.append_assoc]
    exact ⟨trivial, trivial⟩

theorem toInt_of_lt (n : Nat) (h : n < 2147483648) : toInt n = n := by
  unfold toInt
  have : n % 4294967296 = n := Nat.mod_eq_of_lt (by omega)
  rw [this, if_pos h]

theorem lengthByte_lt (data : List Nat) : lengthByte data < 256 := by
  unfold lengthByte; omega

theorem lengthByte_eq_min (data : List Nat) (h : data.length < 2147483648) :
    lengthByte data = min data.length 255 := by
  unfold lengthByte; rw [toInt_of_lt _ h]; omega

theorem lengthByte_of_le (data : List Nat) (h : data.length ≤ 255) :
    lengthByte data = data.length := by
  rw [lengthByte_eq_min _ (by omega)]; omega

theorem lengthByte_le (data : List Nat) : lengthByte data ≤ min data.length 255 := by
  by_cases h : data.length < 2147483648
  · rw [lengthByte_eq_min _ h]
  · have := lengthByte_lt data; omega

/-- The writes of `writeString` are the encoding `stringWrites`, in order. -/
theorem writeString_run (st : EEPROM) (address : Nat) (data : List Nat) :
    (writeString st address data).bus = st.bus ++ stringWrites address data ∧
    (writeString st address data).mem = replay st.mem (stringWrites address data) := by
  have hl : lengthByte data % 256 = lengthByte data :=
    Nat.mod_eq_of_lt (lengthByte_lt data)
  obtain ⟨hb, hm⟩ := writeLoop_run (fun i => address % 65536 + 1 + i)
    (fun i => data.getD i 0) (lengthByte data)
    (writeByte st (address % 65536) (lengthByte data))
  unfold writeString stringWrites
  refine ⟨?_, ?_⟩
  · simp only [hb, writeByte_bus, Nat.mod_mod, hl, List.append_assoc, List.singleton_append]
  · simp only [hm, writeByte_mem_eq_replay, Nat.mod_mod, hl]
    rfl

theorem saveFields_run (st : EEPROM) (config : DreamClockConfig) :
    (saveFields st config).bus = st.bus ++ fieldWrites config ∧
    (saveFields st config).mem = replay st.mem (fieldWrites config) := by
  unfold saveFields fieldWrites
  simp only [(writeString_run _ _ _).1, (writeString_run _ _ _).2, replay_append,
    List.append_assoc]
  exact ⟨trivial, trivial⟩

theorem saveConfig_run (st : EEPROM) (config : DreamClockConfig) :
    (saveConfig st config).bus = st.bus ++ (fieldWrites config ++ [(0, 170)]) ∧
    (saveConfig st config).mem = replay st.mem (fieldWrites config ++ [(0, 170)]) := by
  unfold saveConfig markConfigured
  rw [writeByte_bus, writeByte_mem_eq_replay, (saveFields_run st config).1,
    (saveFields_run st config).2, replay_append, List.append_assoc]
  exact ⟨rfl, rfl⟩

/-- Every write of an encoding targets the region start or one of the
`lengthByte data` addresses after it. -/
theorem mem_stringWrites (address : Nat) (data : List Nat) (w : Nat × Nat)
    (hw : w ∈ stringWrites address data) :
    ∃ j, j ≤ lengthByte data ∧ w.1 = (address % 65536 + j) % 65536 := by
  unfold stringWrites at hw
  rcases List.mem_cons.1 hw with h | h
  · exact ⟨0, Nat.zero_le _, by rw [h]; simp⟩
  · obtain ⟨i, hi, rfl⟩ := List.mem_map.1 h
    exact ⟨i + 1, by have := List.mem_range.1 hi; omega, by simp [Nat.add_assoc, Nat.add_comm]⟩

theorem replay_map_range_at (f g : Nat → Nat) (n : Nat) (mem : Nat → Nat) (i : Nat)
    (hi : i < n) (hinj : ∀ j, i < j → j < n → f j ≠ f i) :
    replay mem ((List.range n).map (fun k => (f k, g k))) (f i) = g i := by
  induction n with
  | zero => omega
  | succ n ih =>
    rw [List.range_succ, List.map_append, replay_append, List.map_cons, List.map_nil,
      replay_single]
    by_cases h : i = n
    · subst h; simp
    · have hne : f i ≠ f n := fun e => hinj n (by omega) (by omega) e.symm
      rw [if_neg hne]
      exact ih (by omega) (fun j h1 h2 => hinj j h1 (by omega))

/-- After the encoding is written, the region start holds the length byte. -/
theorem replay_stringWrites_len (mem : Nat → Nat) (address : Nat) (data : List Nat) :
    replay mem (stringWrites address data) (address % 65536) = lengthByte data := by
  have h := replay_last [] ((List.range (lengthByte data)).map
      (fun i => ((address % 65536 + 1 + i) % 65536, data.getD i 0 % 256))) mem
      (address % 65536) (lengthByte data) (by
        intro w hw
        obtain ⟨i, hi, rfl⟩ := List.mem_map.1 hw
        have h1 := List.mem_range.1 hi
        have h2 := lengthByte_lt data
        have h3 : address % 65536 < 65536 := Nat.mod_lt _ (by decide)
        show (address % 65536 + 1 + i) % 65536 ≠ address % 65536
        omega)
  exact h

/-- After the encoding is written, the `i`-th address after the region start holds
the `i`-th byte of the text. -/
theorem replay_stringWrites_payload (mem : Nat → Nat) (address : Nat) (data : List Nat)
    (i : Nat) (hi : i < lengthByte data) :
    replay mem (stringWrites address data) ((address % 65536 + 1 + i) % 65536) =
      data.getD i 0 % 256 := by
  have h2 := lengthByte_lt data
  have h3 : address % 65536 < 65536 := Nat.mod_lt _ (by decide)
  unfold stringWrites
  rw [replay]
  exact replay_map_range_at (fun k => (address % 65536 + 1 + k) % 65536)
    (fun k => data.getD k 0 % 256) (lengthByte data) _ i hi
    (fun j h1 hj => by
      show (address % 65536 + 1 + j) % 65536 ≠ (address % 65536 + 1 + i) % 65536
      omega)

/-! ## Lemmas: reading a string -/

theorem readByte_mod (st : EEPROM) (a : Nat) : readByte st (a % 65536) = readByte st a := by
  unfold readByte; rw [Nat.mod_mod]

theorem foldl_snoc_eq_map (h : Nat → Nat) (l : List Nat) (init : List Nat) :
    l.foldl (fun result i => result ++ [h i]) init = init ++ l.map h := by
  induction l generalizing init with
  | nil => simp
  | cons x l ih => simp [ih]

theorem readString_eq (st : EEPROM) (address maxLength : Nat) :
    readString st address maxLength =
      if readByte st address = 0 ∨ readByte st address > maxLength % 256 then []
      else (List.range (readByte st address)).map
        (fun i => readByte st (address % 65536 + 1 + i)) := by
  unfold readString
  simp only [readByte_mod, foldl_snoc_eq_map, List.nil_append]

/-- The result of `readString` depends only on the bytes of its region. -/
theorem readString_congr (st st' : EEPROM) (address maxLength : Nat)
    (h : ∀ j, j ≤ maxLength % 256 →
      st.mem ((address % 65536 + j) % 65536) = st'.mem ((address % 65536 + j) % 65536)) :
    readString st address maxLength = readString st' address maxLength := by
  have h0 : readByte st address = readByte st' address := by
    have := h 0 (Nat.zero_le _)
    simp only [Nat.add_zero, Nat.mod_mod] at this
    unfold readByte; rw [this]
  rw [readString_eq, readString_eq, ← h0]
  by_cases hc : readByte st address = 0 ∨ readByte st address > maxLength % 256
  · rw [if_pos hc, if_pos hc]
  · rw [if_neg hc, if_neg hc]
    apply List.map_congr_left
    intro i hi
    have hi := List.mem_range.1 hi
    have := h (i + 1) (by omega)
    unfold readByte
    rw [show address % 65536 + 1 + i = address % 65536 + (i + 1) by omega, this]

theorem map_getD_range (t : List Nat) :
    (List.range t.length).map (fun i => t.getD i 0) = t := by
  apply List.ext_getElem
  · simp
  · intro i h1 h2
    simp [List.getD_eq_getElem?_getD, List.getElem?_eq_getElem h2]

/-- Reading back right after writing, with room for the text. -/
theorem readString_writeString (st : EEPROM) (address maxLength : Nat) (text : List Nat)
    (ht : isText text) (hl : text.length ≤ maxLength) (hm : maxLength ≤ 255) :
    readString (writeString st address text) address maxLength = text := by
  have hlen : lengthByte text = text.length := lengthByte_of_le text (by omega)
  have hb : readByte (writeString st address text) address = text.length := by
    unfold readByte
    rw [(writeString_run st address text).2, replay_stringWrites_len, hlen]
    omega
  rw [readString_eq, hb]
  by_cases h0 : text.length = 0
  · rw [if_pos (Or.inl h0)]
    exact (List.length_eq_zero.1 h0).symm
  · rw [if_neg (by omega)]
    conv_rhs => rw [← map_getD_range text]
    apply List.map_congr_left
    intro i hi
    have hi := List.mem_range.1 hi
    unfold readByte
    rw [(writeString_run st address text).2,
      replay_stringWrites_payload _ _ _ _ (by omega)]
    have hlt : text.getD i 0 < 256 := by
      rw [List.getD_eq_getElem?_getD, List.getElem?_eq_getElem hi]
      exact ht _ (List.getElem_mem _)
    simp only [Option.getD_some] at *
    omega

/-! ## Lemmas: what `saveConfig` leaves in each region -/

theorem stringWrites_addr_ge (address : Nat) (data : List Nat) (w : Nat × Nat)
    (ha : address < 65000) (hw : w ∈ stringWrites address data) :
    address ≤ w.1 ∧ w.1 ≤ address + lengthByte data := by
  obtain ⟨j, hj, hw⟩ := mem_stringWrites address data w hw
  have := lengthByte_lt data
  omega

/-- Below address 100 and away from the marker, only the ssid write counts. -/
theorem saveConfig_mem_low (st : EEPROM) (config : DreamClockConfig) (x : Nat)
    (h0 : x ≠ 0) (h1 : x < 100) :
    (saveConfig st config).mem x = (writeString st EEPROM_ADDR_SSID config.ssid).mem x := by
  rw [(saveConfig_run st config).2, (writeString_run st _ _).2]
  unfold fieldWrites
  rw [List.append_assoc, replay_append]
  apply replay_of_not_mem
  intro w hw
  simp only [List.mem_append, List.mem_singleton] at hw
  rcases hw with (hw | hw) | hw
  · have := stringWrites_addr_ge _ _ w (by decide) hw
    unfold EEPROM_ADDR_PASSWORD at this; omega
  · have := stringWrites_addr_ge _ _ w (by decide) hw
    unfold EEPROM_ADDR_TIMEZONE at this; omega
  · rw [hw]; exact fun e => h0 e.symm

/-- Between 100 and 199 the timezone and marker writes change nothing. -/
theorem saveConfig_mem_mid (st : EEPROM) (config : DreamClockConfig) (x : Nat)
    (h0 : 100 ≤ x) (h1 : x < 200) :
    (saveConfig st config).mem x =
      (writeString (writeString st EEPROM_ADDR_SSID config.ssid)
        EEPROM_ADDR_PASSWORD config.password).mem x := by
  rw [(saveConfig_run st config).2, (writeString_run _ _ _).2, (writeString_run st _ _).2]
  unfold fieldWrites
  rw [List.append_assoc, replay_append, List.append_assoc, replay_append]
  apply replay_of_not_mem
  intro w hw
  simp only [List.mem_append, List.mem_singleton] at hw
  rcases hw with hw | hw
  · have := stringWrites_addr_ge _ _ w (by decide) hw
    unfold EEPROM_ADDR_TIMEZONE at this; omega
  · rw [hw]; omega

/-- Away from the marker, the memory is that left by the three field writes. -/
theorem saveConfig_mem_high (st : EEPROM) (config : DreamClockConfig) (x : Nat)
    (h0 : x ≠ 0) : (saveConfig st config).mem x = (saveFields st config).mem x := by
  unfold saveConfig markConfigured
  rw [writeByte_mem, if_neg]
  unfold EEPROM_ADDR_MAGIC; omega

theorem isConfigured_saveConfig (st : EEPROM) (config : DreamClockConfig) :
    isConfigured (saveConfig st config) = true := by
  unfold isConfigured saveConfig markConfigured readByte
  rw [writeByte_mem, if_pos rfl]
  decide

/-! ## Claims -/

/-- C1: for every initial memory and every record whose ssid has at most 32 bytes,
password at most 64 and timezone at most 50, `loadConfig()` after
`saveConfig(record)` returns the saved record, and `isConfigured()` is true. -/
theorem loadConfig_saveConfig (st : EEPROM) (config : DreamClockConfig)
    (hs : isText config.ssid) (hp : isText config.password) (ht : isText config.timezone)
    (ls : config.ssid.length ≤ 32) (lp : config.password.length ≤ 64)
    (lt : config.timezone.length ≤ 50) :
    loadConfig (saveConfig st config) = config ∧
      isConfigured (saveConfig st config) = true := by
  refine ⟨?_, isConfigured_saveConfig st config⟩
  have e1 : readString (saveConfig st config) EEPROM_ADDR_SSID 32 = config.ssid := by
    rw [readString_congr _ (writeString st EEPROM_ADDR_SSID config.ssid) _ _ (fun j hj =>
      saveConfig_mem_low st config _ (by unfold EEPROM_ADDR_SSID; omega)
        (by unfold EEPROM_ADDR_SSID; omega))]
    exact readString_writeString st _ 32 _ hs ls (by decide)
  have e2 : readString (saveConfig st config) EEPROM_ADDR_PASSWORD 64 = config.password := by
    rw [readString_congr _ (writeString (writeString st EEPROM_ADDR_SSID config.ssid)
      EEPROM_ADDR_PASSWORD config.password) _ _ (fun j hj =>
      saveConfig_mem_mid st config _ (by unfold EEPROM_ADDR_PASSWORD; omega)
        (by unfold EEPROM_ADDR_PASSWORD; omega))]
    exact readString_writeString _ _ 64 _ hp lp (by decide)
  have e3 : readString (saveConfig st config) EEPROM_ADDR_TIMEZONE 50 = config.timezone := by
    rw [readString_congr _ (saveFields st config) _ _ (fun j hj =>
      saveConfig_mem_high st config _ (by unfold EEPROM_ADDR_TIMEZONE; omega))]
    exact readString_writeString _ _ 50 _ ht lt (by decide)
  unfold loadConfig
  rw [e1, e2, e3]

/-- C1 at the record ("HomeWiFi", "secretpass123", "EST5EDT,M3.2.0/2,M11.1.0/2"),
saved over a chip that held other bytes. -/
theorem loadConfig_saveConfig_witness :
    (isText homeConfig.ssid ∧ isText homeConfig.password ∧ isText homeConfig.timezone) ∧
    (homeConfig.ssid.length ≤ 32 ∧ homeConfig.password.length ≤ 64 ∧
      homeConfig.timezone.length ≤ 50) ∧
    loadConfig (saveConfig staleChip homeConfig) = homeConfig ∧
      isConfigured (saveConfig staleChip homeConfig) = true :=
  ⟨by decide, by decide,
    loadConfig_saveConfig staleChip homeConfig (by decide) (by decide) (by decide)
      (by decide) (by decide) (by decide)⟩

/-- C2: for every memory, every region start address, every `maxLength` in 0..255
and every text no longer than `maxLength`, `readString(address, maxLength)` on the
memory produced by `writeString(address, text)` returns exactly the text. -/
theorem readString_writeString_roundtrip (st : EEPROM) (address maxLength : Nat)
    (text : List Nat) (ht : isText text) (hm : maxLength ≤ 255)
    (hl : text.length ≤ maxLength) :
    readString (writeString st address text) address maxLength = text :=
  readString_writeString st address maxLength text ht hl hm

/-- C2 at a two-byte text written at the last address, 65535, of a chip that held
other bytes (the payload wraps to addresses 0 and 1). -/
theorem readString_writeString_roundtrip_witness :
    (isText [72, 105] ∧ 2 ≤ 255 ∧ [72, 105].length ≤ 2) ∧
    readString (writeString staleChip 65535 [72, 105]) 65535 2 = [72, 105] :=
  ⟨by decide, readString_writeString_roundtrip staleChip 65535 2 [72, 105]
    (by decide) (by decide) (by decide)⟩

/-! ## Lemmas: fields -/

theorem loadConfig_field (f : Field) (st : EEPROM) :
    f.get (loadConfig st) = readString st f.address f.maxLength := by
  cases f <;> rfl

/-- The guard of `readString`: a length byte of 0, or above `maxLength`, gives "". -/
theorem readString_of_guard (st : EEPROM) (address maxLength : Nat)
    (h : readByte st address = 0 ∨ readByte st address > maxLength) :
    readString st address maxLength = [] := by
  rw [readString_eq, if_pos]
  rcases h with h | h
  · exact Or.inl h
  · exact Or.inr (Nat.lt_of_le_of_lt (Nat.mod_le _ _) h)

/-- After `saveConfig`, the first byte of each field's region is the length byte of
that field's text. -/
theorem readByte_saveConfig_field (f : Field) (st : EEPROM) (config : DreamClockConfig) :
    readByte (saveConfig st config) f.address = lengthByte (f.get config) := by
  have hl := lengthByte_lt (f.get config)
  unfold readByte
  cases f
  · rw [saveConfig_mem_low st config _ (by decide) (by decide), (writeString_run _ _ _).2]
    show replay _ _ (EEPROM_ADDR_SSID % 65536) % 256 = _
    rw [replay_stringWrites_len]; exact Nat.mod_eq_of_lt hl
  · rw [saveConfig_mem_mid st config _ (by decide) (by decide), (writeString_run _ _ _).2]
    show replay _ _ (EEPROM_ADDR_PASSWORD % 65536) % 256 = _
    rw [replay_stringWrites_len]; exact Nat.mod_eq_of_lt hl
  · rw [saveConfig_mem_high st config _ (by decide)]
    unfold saveFields
    rw [(writeString_run _ _ _).2]
    show replay _ _ (EEPROM_ADDR_TIMEZONE % 65536) % 256 = _
    rw [replay_stringWrites_len]; exact Nat.mod_eq_of_lt hl

/-- Right after `writeString`, the `i`-th address after the start holds the `i`-th
byte of the text, for each `i` below the length byte. -/
theorem readByte_writeString_payload (st : EEPROM) (address : Nat) (text : List Nat)
    (ht : isText text) (i : Nat) (hi : i < lengthByte text) :
    readByte (writeString st address text) (address + 1 + i) = text.getD i 0 := by
  have hle := lengthByte_le text
  have hi2 : i < text.length := by omega
  have hlt : text.getD i 0 < 256 := by
    rw [List.getD_eq_getElem?_getD, List.getElem?_eq_getElem hi2]
    exact ht _ (List.getElem_mem _)
  unfold readByte
  rw [(writeString_run _ _ _).2,
    show (address + 1 + i) % 65536 = (address % 65536 + 1 + i) % 65536 by omega,
    replay_stringWrites_payload _ _ _ _ hi]
  omega

/-- No field write of `saveConfig` targets the marker address. -/
theorem fieldWrites_addr_ne_zero (config : DreamClockConfig) (w : Nat × Nat)
    (hw : w ∈ fieldWrites config) : w.1 ≠ 0 := by
  unfold fieldWrites at hw
  simp only [List.mem_append] at hw
  rcases hw with hw | hw | hw
  · have := stringWrites_addr_ge _ _ w (by decide) hw
    unfold EEPROM_ADDR_SSID at this; omega
  · have := stringWrites_addr_ge _ _ w (by decide) hw
    unfold EEPROM_ADDR_PASSWORD at this; omega
  · have := stringWrites_addr_ge _ _ w (by decide) hw
    unfold EEPROM_ADDR_TIMEZONE at this; omega

/-- Letting all field writes through is the state `saveConfig` reaches just before
its marker write. -/
theorem interruptedSave_all (st : EEPROM) (config : DreamClockConfig) :
    (interruptedSave st config (fieldWrites config).length).mem = (saveFields st config).mem ∧
    (interruptedSave st config (fieldWrites config).length).bus = (saveFields st config).bus := by
  unfold interruptedSave
  rw [List.take_length, (saveFields_run st config).1, (saveFields_run st config).2]
  exact ⟨rfl, rfl⟩

theorem interruptedSave_marker (st : EEPROM) (config : DreamClockConfig) (k : Nat) :
    (interruptedSave st config k).mem 0 = st.mem 0 := by
  unfold interruptedSave
  exact replay_of_not_mem _ _ _
    (fun w hw => fieldWrites_addr_ne_zero config w (List.mem_of_mem_take hw))

/-! ## Claims on oversized fields -/

/-- C3 fails on the code: a text longer than its field's maximum should be stored as
its first `maxLength` bytes under the length byte `maxLength` and load as that
prefix, but a saved 33-byte ssid is stored with length byte 33, not 32, and loads as
the empty text, not as its 32-byte prefix; likewise a 65-byte password (length byte
65) and a 51-byte timezone (length byte 51). `writeString` bounds the length by 255
only, against the maxima of the memory map (32, 64, 50) that `readString` checks. -/
theorem truncation_counterexample :
    (32 < longSsidConfig.ssid.length ∧
      readByte (saveConfig blankChip longSsidConfig) EEPROM_ADDR_SSID = 33 ∧
      (loadConfig (saveConfig blankChip longSsidConfig)).ssid = [] ∧
      (loadConfig (saveConfig blankChip longSsidConfig)).ssid ≠
        longSsidConfig.ssid.take 32) ∧
    (64 < longTailConfig.password.length ∧
      readByte (saveConfig blankChip longTailConfig) EEPROM_ADDR_PASSWORD = 65 ∧
      (loadConfig (saveConfig blankChip longTailConfig)).password ≠
        longTailConfig.password.take 64) ∧
    (50 < longTailConfig.timezone.length ∧
      readByte (saveConfig blankChip longTailConfig) EEPROM_ADDR_TIMEZONE = 51 ∧
      (loadConfig (saveConfig blankChip longTailConfig)).timezone ≠
        longTailConfig.timezone.take 50) := by
  decide

/-- The behaviour of the code on a field longer than its maximum (and shorter than
2^31 bytes): after `saveConfig` the field's length byte is `min(length, 255)`,
`writeString` stores the first `min(length, 255)` bytes of the text after it, and
`loadConfig` returns the empty text for the field. -/
theorem oversized_field_not_truncated (f : Field) (st : EEPROM) (config : DreamClockConfig)
    (ht : isText (f.get config)) (hlong : f.maxLength < (f.get config).length)
    (h31 : (f.get config).length < 2147483648) :
    readByte (saveConfig st config) f.address = min (f.get config).length 255 ∧
    (∀ (st' : EEPROM) (i : Nat), i < min (f.get config).length 255 →
      readByte (writeString st' f.address (f.get config)) (f.address + 1 + i) =
        (f.get config).getD i 0) ∧
    f.get (loadConfig (saveConfig st config)) = [] := by
  have hb := readByte_saveConfig_field f st config
  have hl := lengthByte_eq_min (f.get config) h31
  refine ⟨by rw [hb, hl], ?_, ?_⟩
  · intro st' i hi
    exact readByte_writeString_payload st' _ _ ht i (by rw [hl]; exact hi)
  · rw [loadConfig_field]
    apply readString_of_guard
    right
    rw [hb, hl]
    have : f.maxLength ≤ 64 := by cases f <;> decide
    omega

/-- The behaviour on an oversized field, at the 33-byte ssid saved on a blank chip. -/
theorem oversized_field_not_truncated_witness :
    (isText (Field.ssid.get longSsidConfig) ∧
      Field.ssid.maxLength < (Field.ssid.get longSsidConfig).length ∧
      (Field.ssid.get longSsidConfig).length < 2147483648) ∧
    (readByte (saveConfig blankChip longSsidConfig) Field.ssid.address =
        min (Field.ssid.get longSsidConfig).length 255 ∧
      (∀ (st' : EEPROM) (i : Nat), i < min (Field.ssid.get longSsidConfig).length 255 →
        readByte (writeString st' Field.ssid.address (Field.ssid.get longSsidConfig))
          (Field.ssid.address + 1 + i) = (Field.ssid.get longSsidConfig).getD i 0) ∧
      Field.ssid.get (loadConfig (saveConfig blankChip longSsidConfig)) = []) :=
  ⟨by decide, oversized_field_not_truncated Field.ssid blankChip longSsidConfig
    (by decide) (by decide) (by decide)⟩

/-- C4 fails on the code: `saveConfig` should change no byte outside the marker byte
and the regions `[10, 42]`, `[100, 164]`, `[200, 250]`, but saving a 33-byte ssid
changes address 43, saving a 65-byte password address 165, saving a 51-byte
timezone address 251, all outside the marker and the three regions; and saving a
100-byte ssid with an empty password changes address 105, inside the password's
region. `writeString` bounds the length by 255 only, against the maxima of the
memory map (32, 64, 50) that `readString` checks. -/
theorem saveConfig_frame_counterexample :
    (saveConfig blankChip longSsidConfig).mem 43 ≠ blankChip.mem 43 ∧
    (saveConfig blankChip longTailConfig).mem 165 ≠ blankChip.mem 165 ∧
    (saveConfig blankChip longTailConfig).mem 251 ≠ blankChip.mem 251 ∧
    (hugeSsidConfig.password = [] ∧
      (saveConfig blankChip hugeSsidConfig).mem 105 ≠ blankChip.mem 105) := by
  decide

/-- The bytes that `saveConfig` can change in the code: none outside the marker byte
at address 0 and the ranges `[10, 10 + n1]`, `[100, 100 + n2]`, `[200, 200 + n3]`,
where `n` is `min(length, 255)` of the field's text. -/
theorem saveConfig_frame (st : EEPROM) (config : DreamClockConfig) (x : Nat)
    (h0 : x ≠ 0)
    (h1 : ¬ (10 ≤ x ∧ x ≤ 10 + min config.ssid.length 255))
    (h2 : ¬ (100 ≤ x ∧ x ≤ 100 + min config.password.length 255))
    (h3 : ¬ (200 ≤ x ∧ x ≤ 200 + min config.timezone.length 255)) :
    (saveConfig st config).mem x = st.mem x := by
  rw [(saveConfig_run st config).2]
  apply replay_of_not_mem
  intro w hw
  unfold fieldWrites at hw
  simp only [List.mem_append, List.mem_singleton] at hw
  rcases hw with (hw | hw | hw) | hw
  · have := stringWrites_addr_ge _ _ w (by decide) hw
    have := lengthByte_le config.ssid
    unfold EEPROM_ADDR_SSID at *; omega
  · have := stringWrites_addr_ge _ _ w (by decide) hw
    have := lengthByte_le config.password
    unfold EEPROM_ADDR_PASSWORD at *; omega
  · have := stringWrites_addr_ge _ _ w (by decide) hw
    have := lengthByte_le config.timezone
    unfold EEPROM_ADDR_TIMEZONE at *; omega
  · rw [hw]; exact fun e => h0 e.symm

/-- The frame of `saveConfig` at address 44 when the 33-byte ssid is saved over a chip
that held other bytes. -/
theorem saveConfig_frame_witness :
    (44 ≠ 0 ∧ ¬ (10 ≤ 44 ∧ 44 ≤ 10 + min longSsidConfig.ssid.length 255) ∧
      ¬ (100 ≤ 44 ∧ 44 ≤ 100 + min longSsidConfig.password.length 255) ∧
      ¬ (200 ≤ 44 ∧ 44 ≤ 200 + min longSsidConfig.timezone.length 255)) ∧
    (saveConfig staleChip longSsidConfig).mem 44 = staleChip.mem 44 :=
  ⟨by decide, saveConfig_frame staleChip longSsidConfig 44 (by decide) (by decide)
    (by decide) (by decide)⟩

/-! ## Claims on the guard and the marker -/

/-- C5: if the byte at the region's first address is 0, or is greater than
`maxLength`, then `readString(address, maxLength)` returns the empty text whatever
the rest of the memory holds; so `loadConfig()`, a total function, yields the empty
text for a field whose region and maximum these are. -/
theorem readString_guard (st : EEPROM) (address maxLength : Nat)
    (h : readByte st address = 0 ∨ readByte st address > maxLength) :
    readString st address maxLength = [] ∧
    ∀ f : Field, f.address = address → f.maxLength = maxLength →
      f.get (loadConfig st) = [] := by
  refine ⟨readString_of_guard st address maxLength h, ?_⟩
  intro f ha hm
  rw [loadConfig_field, ha, hm]
  exact readString_of_guard st address maxLength h

/-- C5 on a chip whose bytes are all 0xAA: the ssid region's length byte, 170,
exceeds 32. -/
theorem readString_guard_witness :
    (readByte staleChip 10 = 0 ∨ readByte staleChip 10 > 32) ∧
    (readString staleChip 10 32 = [] ∧
      ∀ f : Field, f.address = 10 → f.maxLength = 32 → f.get (loadConfig staleChip) = []) :=
  ⟨by decide, readString_guard staleChip 10 32 (by decide)⟩

/-- C6: `isConfigured()` is true exactly when the byte at address 0 is 0xAA; it is
true after `markConfigured()` and false after `clearConfig()`, whatever the memory
held before. -/
theorem marker_semantics (st : EEPROM) :
    (isConfigured st = true ↔ st.mem 0 % 256 = 0xAA) ∧
    isConfigured (markConfigured st) = true ∧
    isConfigured (clearConfig st) = false := by
  refine ⟨?_, ?_, ?_⟩
  · unfold isConfigured readByte EEPROM_ADDR_MAGIC CONFIG_MAGIC_BYTE
    simp
  · unfold isConfigured markConfigured readByte
    rw [writeByte_mem, if_pos rfl]; decide
  · unfold isConfigured clearConfig readByte
    rw [writeByte_mem, if_pos rfl]; decide

/-- C7: `markConfigured()` and `clearConfig()` change only the byte at address 0;
`loadConfig()` after either returns what it returned before; and `loadConfig()`
returns the same record on any two memories that differ at most at address 0. -/
theorem marker_writes_frame (st : EEPROM) :
    (∀ x, x ≠ 0 → (markConfigured st).mem x = st.mem x) ∧
    (∀ x, x ≠ 0 → (clearConfig st).mem x = st.mem x) ∧
    loadConfig (clearConfig st) = loadConfig st ∧
    loadConfig (markConfigured st) = loadConfig st ∧
    ∀ st' : EEPROM, (∀ x, x ≠ 0 → st'.mem x = st.mem x) → loadConfig st' = loadConfig st := by
  have hload : ∀ st' : EEPROM, (∀ x, x ≠ 0 → st'.mem x = st.mem x) →
      loadConfig st' = loadConfig st := by
    intro st' h
    unfold loadConfig
    rw [readString_congr st' st EEPROM_ADDR_SSID 32
        (fun j hj => h _ (by unfold EEPROM_ADDR_SSID; omega)),
      readString_congr st' st EEPROM_ADDR_PASSWORD 64
        (fun j hj => h _ (by unfold EEPROM_ADDR_PASSWORD; omega)),
      readString_congr st' st EEPROM_ADDR_TIMEZONE 50
        (fun j hj => h _ (by unfold EEPROM_ADDR_TIMEZONE; omega))]
  have hm : ∀ x, x ≠ 0 → (markConfigured st).mem x = st.mem x := by
    intro x hx
    unfold markConfigured
    rw [writeByte_mem]
    exact if_neg hx
  have hc : ∀ x, x ≠ 0 → (clearConfig st).mem x = st.mem x := by
    intro x hx
    unfold clearConfig
    rw [writeByte_mem]
    exact if_neg hx
  exact ⟨hm, hc, hload _ hc, hload _ hm, hload⟩

/-- C8 fails as stated: on the chip left configured by an earlier save, after the
first 5 field byte writes of a new `saveConfig` the marker byte is still 0xAA and
`isConfigured()` is true. -/
theorem marker_during_save_counterexample :
    isConfigured configuredChip = true ∧
    5 < (fieldWrites officeConfig).length ∧
    readByte (interruptedSave configuredChip officeConfig 5) EEPROM_ADDR_MAGIC =
      CONFIG_MAGIC_BYTE ∧
    isConfigured (interruptedSave configuredChip officeConfig 5) = true := by
  decide

/-- C8, amended: on an initial memory where `isConfigured()` is false, at every
point of `saveConfig` before its marker write (after any number `k` of its field
byte writes) the marker byte holds its initial value and `isConfigured()` is false.
The points are those of `saveConfig` by `saveConfig_run` and `interruptedSave_all`. -/
theorem marker_unset_during_save (st : EEPROM) (config : DreamClockConfig) (k : Nat)
    (h : isConfigured st = false) :
    (interruptedSave st config k).mem 0 = st.mem 0 ∧
    isConfigured (interruptedSave st config k) = false := by
  refine ⟨interruptedSave_marker st config k, ?_⟩
  unfold isConfigured readByte at *
  rw [show EEPROM_ADDR_MAGIC % 65536 = 0 by decide] at *
  rw [interruptedSave_marker st config k]
  exact h

/-- C8, amended, on a blank chip after 5 field byte writes. -/
theorem marker_unset_during_save_witness :
    isConfigured blankChip = false ∧
    ((interruptedSave blankChip officeConfig 5).mem 0 = blankChip.mem 0 ∧
      isConfigured (interruptedSave blankChip officeConfig 5) = false) :=
  ⟨by decide, marker_unset_during_save blankChip officeConfig 5 (by decide)⟩

/-- C9: on an initial memory where `isConfigured()` is false, after the three field
writes of `saveConfig` without its marker write `isConfigured()` is still false; the
byte at address 0 is unchanged, as no field write targets address 0. -/
theorem interrupted_save_unconfigured (st : EEPROM) (config : DreamClockConfig)
    (h : isConfigured st = false) :
    isConfigured (saveFields st config) = false ∧
    (saveFields st config).mem 0 = st.mem 0 ∧
    ∀ w ∈ fieldWrites config, w.1 ≠ 0 := by
  have hm : (saveFields st config).mem 0 = st.mem 0 := by
    rw [(saveFields_run st config).2]
    exact replay_of_not_mem _ _ _ (fieldWrites_addr_ne_zero config)
  refine ⟨?_, hm, fieldWrites_addr_ne_zero config⟩
  unfold isConfigured readByte at *
  rw [show EEPROM_ADDR_MAGIC % 65536 = 0 by decide] at *
  rw [hm]
  exact h

/-- C9 on a blank chip and the record ("HomeWiFi", ...). -/
theorem interrupted_save_unconfigured_witness :
    isConfigured blankChip = false ∧
    (isConfigured (saveFields blankChip homeConfig) = false ∧
      (saveFields blankChip homeConfig).mem 0 = blankChip.mem 0 ∧
      ∀ w ∈ fieldWrites homeConfig, w.1 ≠ 0) :=
  ⟨by decide, interrupted_save_unconfigured blankChip homeConfig (by decide)⟩

/-- C10: the writes issued by `saveConfig` are the encoding of ssid at address 10,
then that of password at 100, then that of timezone at 200, then one write of 0xAA
to address 0; the marker write is last and no write before it targets address 0. -/
theorem saveConfig_write_order (st : EEPROM) (config : DreamClockConfig) :
    (saveConfig st config).bus =
      st.bus ++ (stringWrites 10 config.ssid ++ stringWrites 100 config.password ++
        stringWrites 200 config.timezone ++ [(0, 0xAA)]) ∧
    ∀ w ∈ stringWrites 10 config.ssid ++ stringWrites 100 config.password ++
        stringWrites 200 config.timezone, w.1 ≠ 0 := by
  refine ⟨?_, ?_⟩
  · rw [(saveConfig_run st config).1]
    unfold fieldWrites EEPROM_ADDR_SSID EEPROM_ADDR_PASSWORD EEPROM_ADDR_TIMEZONE
    simp only [List.append_assoc]
  · intro w hw
    apply fieldWrites_addr_ne_zero config w
    unfold fieldWrites EEPROM_ADDR_SSID EEPROM_ADDR_PASSWORD EEPROM_ADDR_TIMEZONE
    simpa only [List.append_assoc] using hw

/-! ## Lemmas: replaying the same writes again -/

theorem replay_congr_at (ws : List (Nat × Nat)) (m m' : Nat → Nat) (x : Nat)
    (h : m x = m' x) : replay m ws x = replay m' ws x := by
  induction ws generalizing m m' with
  | nil => exact h
  | cons w ws ih =>
    obtain ⟨a, d⟩ := w
    rw [replay, replay]
    apply ih
    by_cases hx : x = a
    · simp [hx]
    · simp [hx, h]

/-- At an address that the writes target, the result does not depend on the memory
they started from. -/
theorem replay_of_mem (ws : List (Nat × Nat)) (m m' : Nat → Nat) (x : Nat)
    (h : ∃ w ∈ ws, w.1 = x) : replay m ws x = replay m' ws x := by
  induction ws generalizing m m' with
  | nil => obtain ⟨w, hw, _⟩ := h; cases hw
  | cons w ws ih =>
    obtain ⟨a, d⟩ := w
    rw [replay, replay]
    by_cases hin : ∃ w ∈ ws, w.1 = x
    · exact ih _ _ hin
    · obtain ⟨w, hw, hwx⟩ := h
      rcases List.mem_cons.1 hw with e | e
      · subst e
        apply replay_congr_at
        simp [← hwx]
      · exact absurd ⟨w, e, hwx⟩ hin

theorem replay_idem (ws : List (Nat × Nat)) (m : Nat → Nat) :
    replay (replay m ws) ws = replay m ws := by
  funext x
  by_cases hin : ∃ w ∈ ws, w.1 = x
  · exact replay_of_mem ws _ _ x hin
  · have hno : ∀ w ∈ ws, w.1 ≠ x := fun w hw e => hin ⟨w, hw, e⟩
    rw [replay_of_not_mem ws _ x hno]

/-- The record that `loadConfig` returns depends on the memory only. -/
theorem loadConfig_congr (st st' : EEPROM) (h : st.mem = st'.mem) :
    loadConfig st = loadConfig st' := by
  unfold loadConfig
  rw [readString_congr st st' EEPROM_ADDR_SSID 32 (fun j _ => by rw [h]),
    readString_congr st st' EEPROM_ADDR_PASSWORD 64 (fun j _ => by rw [h]),
    readString_congr st st' EEPROM_ADDR_TIMEZONE 50 (fun j _ => by rw [h])]

/-! ## Claims on saving twice, blank memory and loaded fields -/

/-- C11: calling `saveConfig(record)` twice in a row leaves exactly the memory that
one call leaves, hence the same `loadConfig()` and `isConfigured()` results, for
every initial memory and every record. -/
theorem saveConfig_idempotent (st : EEPROM) (config : DreamClockConfig) :
    (saveConfig (saveConfig st config) config).mem = (saveConfig st config).mem ∧
    loadConfig (saveConfig (saveConfig st config) config) =
      loadConfig (saveConfig st config) ∧
    isConfigured (saveConfig (saveConfig st config) config) =
      isConfigured (saveConfig st config) := by
  have hm : (saveConfig (saveConfig st config) config).mem = (saveConfig st config).mem := by
    rw [(saveConfig_run (saveConfig st config) config).2, (saveConfig_run st config).2]
    exact replay_idem _ _
  refine ⟨hm, loadConfig_congr _ _ hm, ?_⟩
  rw [isConfigured_saveConfig, isConfigured_saveConfig]

/-- C12: on a memory whose bytes are all 0x00, `isConfigured()` is false and
`loadConfig()` returns three empty fields. -/
theorem blank_memory_unconfigured (st : EEPROM) (h : ∀ a, st.mem a = 0) :
    isConfigured st = false ∧
    loadConfig st = { ssid := [], password := [], timezone := [] } := by
  have hr : ∀ a, readByte st a = 0 := by
    intro a; unfold readByte; rw [h]
  refine ⟨?_, ?_⟩
  · unfold isConfigured
    rw [hr]; decide
  · unfold loadConfig
    rw [readString_of_guard st _ _ (Or.inl (hr _)), readString_of_guard st _ _ (Or.inl (hr _)),
      readString_of_guard st _ _ (Or.inl (hr _))]

/-- C12 on the blank chip. -/
theorem blank_memory_unconfigured_witness :
    (∀ a, blankChip.mem a = 0) ∧
    (isConfigured blankChip = false ∧
      loadConfig blankChip = { ssid := [], password := [], timezone := [] }) :=
  ⟨fun _ => rfl, blank_memory_unconfigured blankChip (fun _ => rfl)⟩

/-- C13: for every memory, each field returned by `loadConfig()` is either empty, or
the `n` bytes that follow its region's length byte `n`, in address order, with
`1 ≤ n ≤` the field's maximum; in both cases it has at most the field's maximum
(32, 64, 50) bytes. -/
theorem loadConfig_field_shape (f : Field) (st : EEPROM) :
    (f.get (loadConfig st) = [] ∨
      (1 ≤ readByte st f.address ∧ readByte st f.address ≤ f.maxLength ∧
        f.get (loadConfig st) = (List.range (readByte st f.address)).map
          (fun i => readByte st (f.address + 1 + i)) ∧
        (f.get (loadConfig st)).length = readByte st f.address)) ∧
    (f.get (loadConfig st)).length ≤ f.maxLength := by
  have hmod : f.address % 65536 = f.address := by cases f <;> decide
  have hmax : f.maxLength % 256 = f.maxLength := by cases f <;> decide
  rw [loadConfig_field, readString_eq, hmod, hmax]
  by_cases hc : readByte st f.address = 0 ∨ readByte st f.address > f.maxLength
  · rw [if_pos hc]
    exact ⟨Or.inl rfl, Nat.zero_le _⟩
  · rw [if_neg hc]
    have h1 : 1 ≤ readByte st f.address := by omega
    have h2 : readByte st f.address ≤ f.maxLength := by omega
    refine ⟨Or.inr ⟨h1, h2, rfl, by simp⟩, by simpa using h2⟩

/-! ## Lemmas: the bus-level readers -/

theorem readByteOn_true (st : EEPROM) (a : Nat) : readByteOn true st a = readByte st a := rfl

theorem readByteOn_false (st : EEPROM) (a : Nat) : readByteOn false st a = 0 := rfl

theorem foldl_pair_snoc (g h : Nat → Nat) (l : List Nat) (init : List Nat × List Nat) :
    l.foldl (fun acc i => (acc.1 ++ [g i], acc.2 ++ [h i])) init =
      (init.1 ++ l.map g, init.2 ++ l.map h) := by
  induction l generalizing init with
  | nil => simp
  | cons x l ih => simp [ih]

theorem readStringOn_eq (available : Bool) (st : EEPROM) (address maxLength : Nat) :
    readStringOn available st address maxLength =
      if readByteOn available st (address % 65536) = 0 ∨
          readByteOn available st (address % 65536) > maxLength % 256 then
        ([], [address % 65536])
      else
        ((List.range (readByteOn available st (address % 65536))).map
            (fun i => readByteOn available st (address % 65536 + 1 + i)),
          address % 65536 :: (List.range (readByteOn available st (address % 65536))).map
            (fun i => (address % 65536 + 1 + i) % 65536)) := by
  unfold readStringOn
  simp only [foldl_pair_snoc, List.nil_append, List.singleton_append]

/-- With a bus that answers, the bus-level `readString` returns what `readString` does. -/
theorem readStringOn_true_fst (st : EEPROM) (address maxLength : Nat) :
    (readStringOn true st address maxLength).1 = readString st address maxLength := by
  rw [readStringOn_eq, readString_eq]
  simp only [readByteOn_true, readByte_mod]
  split <;> rfl

theorem isConfiguredOn_true (st : EEPROM) : isConfiguredOn true st = isConfigured st := rfl

theorem loadConfigOn_true (st : EEPROM) : loadConfigOn true st = loadConfig st := by
  unfold loadConfigOn loadConfig
  simp only [readStringOn_true_fst]

theorem map_range_succ (f : Nat → Nat) (n : Nat) :
    (List.range (n + 1)).map f = f 0 :: (List.range n).map (fun i => f (i + 1)) := by
  rw [List.range_succ_eq_map, List.map_cons, List.map_map]
  rfl

theorem stringWrites_addrs (address : Nat) (data : List Nat) :
    (stringWrites address data).map Prod.fst =
      (List.range (lengthByte data + 1)).map (fun j => (address + j) % 65536) := by
  unfold stringWrites
  rw [map_range_succ, List.map_cons, List.map_map]
  congr 1
  apply List.map_congr_left
  intro i _
  show (address % 65536 + 1 + i) % 65536 = (address + (i + 1)) % 65536
  omega

/-! ## Claims on the bus -/

/-- C14: when `Wire.available()` is false on every read, `readByte` returns 0 for
every address, `isConfigured()` is false and `loadConfig()` returns three empty
fields, whatever the memory chip holds; all three are total functions. -/
theorem silent_bus_reads_unconfigured (st : EEPROM) :
    (∀ address, readByteOn false st address = 0) ∧
    isConfiguredOn false st = false ∧
    loadConfigOn false st = { ssid := [], password := [], timezone := [] } := by
  refine ⟨fun _ => rfl, rfl, ?_⟩
  unfold loadConfigOn
  simp only [readStringOn_eq, readByteOn_false, true_or, if_true]

/-- C15: the marker byte and the three string regions `[10, 42]`, `[100, 164]`,
`[200, 250]` (one length byte and the maximum that `loadConfig` passes to
`readString`) are pairwise disjoint, each region ends before the next offset, and
the writes of a text of at most the field's maximum stay inside the field's region. -/
theorem regions_disjoint (f g : Field) (x : Nat) (hfg : f ≠ g) :
    ¬ (f.inRegion x ∧ g.inRegion x) ∧
    ¬ f.inRegion EEPROM_ADDR_MAGIC ∧
    (EEPROM_ADDR_MAGIC < Field.ssid.address ∧
      Field.ssid.address + Field.ssid.maxLength < Field.password.address ∧
      Field.password.address + Field.password.maxLength < Field.timezone.address) ∧
    ∀ text : List Nat, text.length ≤ f.maxLength →
      ∀ w ∈ stringWrites f.address text, f.inRegion w.1 := by
  refine ⟨?_, ?_, by decide, ?_⟩
  · unfold Field.inRegion
    cases f <;> cases g <;>
      simp only [Field.address, Field.maxLength, EEPROM_ADDR_SSID, EEPROM_ADDR_PASSWORD,
        EEPROM_ADDR_TIMEZONE, ne_eq, not_true_eq_false] at * <;> omega
  · unfold Field.inRegion
    cases f <;> decide
  · intro text hl w hw
    have hlen : lengthByte text = text.length :=
      lengthByte_of_le text (by have : f.maxLength ≤ 64 := by cases f <;> decide
                                omega)
    have := stringWrites_addr_ge f.address text w (by cases f <;> decide) hw
    unfold Field.inRegion
    omega

/-- C15 at the ssid and password regions and address 100. -/
theorem regions_disjoint_witness :
    Field.ssid ≠ Field.password ∧
    (¬ (Field.ssid.inRegion 100 ∧ Field.password.inRegion 100) ∧
      ¬ Field.ssid.inRegion EEPROM_ADDR_MAGIC ∧
      (EEPROM_ADDR_MAGIC < Field.ssid.address ∧
        Field.ssid.address + Field.ssid.maxLength < Field.password.address ∧
        Field.password.address + Field.password.maxLength < Field.timezone.address) ∧
      ∀ text : List Nat, text.length ≤ Field.ssid.maxLength →
        ∀ w ∈ stringWrites Field.ssid.address text, Field.ssid.inRegion w.1) :=
  ⟨by decide, regions_disjoint Field.ssid Field.password 100 (by decide)⟩

/-- C16: for every 16-bit address `a` and byte `v`, `writeByte(a, v)` sends to
peripheral 0x50, in one transaction, the bytes `a / 256`, `a % 256`, `v` in that
order; `readByte(a)` sends the bytes `a / 256`, `a % 256` in one transaction, then
requests 1 byte; and the address bytes `hi`, `lo` satisfy `hi * 256 + lo = a`. -/
theorem byte_transactions (a v : Nat) (ha : a < 65536) (hv : v < 256) :
    writeByteCalls a v =
      [.beginTransmission 0x50, .write (a / 256), .write (a % 256), .write v,
        .endTransmission, .delay 5] ∧
    (∀ available : Bool, readByteCalls available a =
      [.beginTransmission 0x50, .write (a / 256), .write (a % 256), .endTransmission,
        .requestFrom 0x50 1, .available] ++ (if available then [.read] else [])) ∧
    (a / 256) * 256 + a % 256 = a ∧ a / 256 < 256 ∧ a % 256 < 256 := by
  have h1 : a % 65536 = a := Nat.mod_eq_of_lt ha
  have h2 : v % 256 = v := Nat.mod_eq_of_lt hv
  have h3 : (a >>> 8) % 256 = a / 256 := by
    rw [Nat.shiftRight_eq_div_pow]
    show a / 256 % 256 = a / 256
    omega
  have h4 : (a &&& 0xFF) % 256 = a % 256 := by
    have := Nat.and_pow_two_sub_one_eq_mod a 8
    rw [show (a &&& 0xFF) = (a &&& 2 ^ 8 - 1) from rfl, this]
    show a % 256 % 256 = a % 256
    omega
  refine ⟨?_, ?_, by omega, by omega, by omega⟩
  · unfold writeByteCalls EEPROM_I2C_ADDRESS
    simp only [h1, h2, h3, h4]
  · intro available
    unfold readByteCalls EEPROM_I2C_ADDRESS
    simp only [h1, h3, h4]

/-- C16 at address 0x1234 and byte 0xAB: the bytes sent are 0x12, 0x34, 0xAB. -/
theorem byte_transactions_witness :
    (0x1234 < 65536 ∧ 0xAB < 256) ∧
    (writeByteCalls 0x1234 0xAB =
      [.beginTransmission 0x50, .write (0x1234 / 256), .write (0x1234 % 256), .write 0xAB,
        .endTransmission, .delay 5] ∧
    (∀ available : Bool, readByteCalls available 0x1234 =
      [.beginTransmission 0x50, .write (0x1234 / 256), .write (0x1234 % 256),
        .endTransmission, .requestFrom 0x50 1, .available] ++
        (if available then [.read] else [])) ∧
    (0x1234 / 256) * 256 + 0x1234 % 256 = 0x1234 ∧ 0x1234 / 256 < 256 ∧
      0x1234 % 256 < 256) :=
  ⟨by decide, byte_transactions 0x1234 0xAB (by decide) (by decide)⟩

/-- C17: with `N` the length byte stored, `writeString(address, text)` performs
`N + 1` `writeByte` calls, at the addresses `address, address + 1, ..., address + N`
(16-bit), the length byte first and the payload in order; and on every memory whose
length byte `N` at `address` satisfies `1 ≤ N ≤ maxLength`, `readString(address,
maxLength)` performs `N + 1` `readByte` calls at those same addresses. -/
theorem string_transaction_count (st : EEPROM) (address : Nat) (text : List Nat) :
    (writeString st address text).bus = st.bus ++ stringWrites address text ∧
    (stringWrites address text).length = lengthByte text + 1 ∧
    (stringWrites address text).map Prod.fst =
      (List.range (lengthByte text + 1)).map (fun j => (address + j) % 65536) ∧
    (stringWrites address text).map Prod.snd =
      lengthByte text :: (List.range (lengthByte text)).map (fun i => text.getD i 0 % 256) ∧
    ∀ (st' : EEPROM) (maxLength : Nat), maxLength ≤ 255 →
      1 ≤ readByte st' address → readByte st' address ≤ maxLength →
      (readStringOn true st' address maxLength).2.length = readByte st' address + 1 ∧
      (readStringOn true st' address maxLength).2 =
        (List.range (readByte st' address + 1)).map (fun j => (address + j) % 65536) := by
  refine ⟨(writeString_run st address text).1, ?_, stringWrites_addrs address text, ?_, ?_⟩
  · unfold stringWrites; simp
  · unfold stringWrites
    rw [List.map_cons, List.map_map]
    rfl
  · intro st' maxLength hm h1 h2
    have hlist : (readStringOn true st' address maxLength).2 =
        (List.range (readByte st' address + 1)).map (fun j => (address + j) % 65536) := by
      rw [readStringOn_eq]
      simp only [readByteOn_true, readByte_mod]
      rw [if_neg (by omega), map_range_succ]
      show _ :: _ = _ :: _
      congr 1
      apply List.map_congr_left
      intro i _
      show (address % 65536 + 1 + i) % 65536 = (address + (i + 1)) % 65536
      omega
    refine ⟨?_, hlist⟩
    rw [hlist]; simp

/-! ## Lemmas: the display helper -/

theorem toUint8_natCast (a : Nat) (h : a < 256) : toUint8 (a : Int) = a := by
  unfold toUint8; omega

/-- The digits stored, for arguments that are natural numbers below 256: position
`i < 5` is blank when the arguments up to `i` are all zero. -/
theorem setDigits_natCast (encodeDigit : Nat → Nat) (a0 a1 a2 a3 a4 a5 : Nat)
    (h0 : a0 < 256) (h1 : a1 < 256) (h2 : a2 < 256) (h3 : a3 < 256) (h4 : a4 < 256)
    (h5 : a5 < 256) :
    setDigitsWithLeadingZeroSuppression encodeDigit a0 a1 a2 a3 a4 a5 =
      [if a0 = 0 then 0x00 else encodeDigit a0,
       if a0 = 0 ∧ a1 = 0 then 0x00 else encodeDigit a1,
       if a0 = 0 ∧ a1 = 0 ∧ a2 = 0 then 0x00 else encodeDigit a2,
       if a0 = 0 ∧ a1 = 0 ∧ a2 = 0 ∧ a3 = 0 then 0x00 else encodeDigit a3,
       if a0 = 0 ∧ a1 = 0 ∧ a2 = 0 ∧ a3 = 0 ∧ a4 = 0 then 0x00 else encodeDigit a4,
       encodeDigit a5] := by
  unfold setDigitsWithLeadingZeroSuppression
  simp only [toUint8_natCast _ h0, toUint8_natCast _ h1, toUint8_natCast _ h2,
    toUint8_natCast _ h3, toUint8_natCast _ h4, toUint8_natCast _ h5]
  by_cases e0 : a0 = 0 <;> by_cases e1 : a1 = 0 <;> by_cases e2 : a2 = 0 <;>
    by_cases e3 : a3 = 0 <;> by_cases e4 : a4 = 0 <;> simp [e0, e1, e2, e3, e4]

theorem displayTime12Hour_natCast (encodeDigit : Nat → Nat) (hour24 minute second : Nat)
    (hh : hour24 ≤ 23) :
    displayTime12Hour encodeDigit hour24 minute second =
      setDigitsWithLeadingZeroSuppression encodeDigit
        ((clockHour hour24 / 10 % 10 : Nat) : Int) ((clockHour hour24 % 10 : Nat) : Int)
        ((minute / 10 % 10 : Nat) : Int) ((minute % 10 : Nat) : Int)
        ((second / 10 % 10 : Nat) : Int) ((second % 10 : Nat) : Int) := by
  unfold displayTime12Hour clockHour
  have e : Int.tmod (hour24 : Int) 12 = ((hour24 % 12 : Nat) : Int) := rfl
  simp only [e]
  by_cases h0 : hour24 = 0 ∨ hour24 = 12
  · have h1 : hour24 % 12 = 0 := by omega
    simp only [h1, if_pos h0]
    rfl
  · have h1 : ¬ (((hour24 % 12 : Nat) : Int) = 0) := by omega
    simp only [if_neg h1, if_neg h0]
    rfl

theorem ite_blank_congr {p q : Prop} [Decidable p] [Decidable q] {x y : Nat}
    (hpq : p ↔ q) (hxy : ¬ q → x = y) :
    (if p then 0x00 else x) = (if q then 0x00 else y) := by
  by_cases hq : q
  · rw [if_pos hq, if_pos (hpq.2 hq)]
  · rw [if_neg hq, if_neg (fun hp => hq (hpq.1 hp))]
    exact hxy hq

theorem ite_blank_neg {p : Prop} [Decidable p] {x y : Nat} (hp : ¬ p) (hxy : x = y) :
    (if p then 0x00 else x) = y := by
  rw [if_neg hp]; exact hxy

theorem clockHour_range (hour24 : Nat) (hh : hour24 ≤ 23) :
    1 ≤ clockHour hour24 ∧ clockHour hour24 ≤ 12 := by
  unfold clockHour
  split <;> omega

/-- Up to and including the first NUL, `displayString` stores the segments of the
characters and a blank at the NUL. -/
theorem displayString_upto_terminator (encodeDigit : Nat → Nat) (str : Nat → Nat)
    (k : Nat) (hk : k < 6) (h0 : str k = 0) (hne : ∀ i < k, str i ≠ 0) (i : Nat)
    (hi : i ≤ k) :
    (displayString encodeDigit str).getD i 0 =
      if i = k then 0x00 else charSegments encodeDigit (str i) := by
  unfold displayString
  have hi6 : i < 6 := by omega
  rw [List.getD_eq_getElem?_getD, List.getElem?_map, List.getElem?_range hi6]
  simp only [Option.map_some', Option.getD_some]
  by_cases e : i = k
  · subst e; rw [if_pos h0, if_pos rfl]
  · rw [if_neg (hne i (by omega)), if_neg e]

/-! ## Claims on the display helper -/

/-- C18: for digits `d0..d5` in 0..9, `setDigitsWithLeadingZeroSuppression` stores a
blank (0x00) at position `i < 5` when `d0..di` are all zero and otherwise the
encoding of `di`, and always the encoding of `d5` at position 5; `displayTimer(0,0,12)`
shows four blanks then 1, 2; `displayTimer(0,5,3)` shows three blanks then 5, 0, 3;
`displayNumber(n)` for `n < 1000000` shows the decimal digits of `n`, right-aligned,
blank above its leading digit. -/
theorem leading_zero_suppression (encodeDigit : Nat → Nat) (d0 d1 d2 d3 d4 d5 n : Nat)
    (h0 : d0 ≤ 9) (h1 : d1 ≤ 9) (h2 : d2 ≤ 9) (h3 : d3 ≤ 9) (h4 : d4 ≤ 9) (h5 : d5 ≤ 9)
    (hn : n < 1000000) :
    setDigitsWithLeadingZeroSuppression encodeDigit d0 d1 d2 d3 d4 d5 =
      [if d0 = 0 then 0x00 else encodeDigit d0,
       if d0 = 0 ∧ d1 = 0 then 0x00 else encodeDigit d1,
       if d0 = 0 ∧ d1 = 0 ∧ d2 = 0 then 0x00 else encodeDigit d2,
       if d0 = 0 ∧ d1 = 0 ∧ d2 = 0 ∧ d3 = 0 then 0x00 else encodeDigit d3,
       if d0 = 0 ∧ d1 = 0 ∧ d2 = 0 ∧ d3 = 0 ∧ d4 = 0 then 0x00 else encodeDigit d4,
       encodeDigit d5] ∧
    displayTimer encodeDigit 0 0 12 =
      [0x00, 0x00, 0x00, 0x00, encodeDigit 1, encodeDigit 2] ∧
    displayTimer encodeDigit 0 5 3 =
      [0x00, 0x00, 0x00, encodeDigit 5, encodeDigit 0, encodeDigit 3] ∧
    displayNumber encodeDigit n =
      [if n < 100000 then 0x00 else encodeDigit (n / 100000),
       if n < 10000 then 0x00 else encodeDigit (n / 10000 % 10),
       if n < 1000 then 0x00 else encodeDigit (n / 1000 % 10),
       if n < 100 then 0x00 else encodeDigit (n / 100 % 10),
       if n < 10 then 0x00 else encodeDigit (n / 10 % 10),
       encodeDigit (n % 10)] := by
  refine ⟨setDigits_natCast encodeDigit d0 d1 d2 d3 d4 d5 (by omega) (by omega) (by omega)
    (by omega) (by omega) (by omega), rfl, rfl, ?_⟩
  have hn' : n % 4294967296 = n := Nat.mod_eq_of_lt (by omega)
  unfold displayNumber
  simp only [hn']
  rw [setDigits_natCast encodeDigit _ _ _ _ _ _ (by omega) (by omega) (by omega) (by omega)
    (by omega) (by omega)]
  simp only [List.cons.injEq, and_true]
  refine ⟨?_, ?_, ?_, ?_, ?_⟩
  · exact ite_blank_congr (by omega) (fun _ => by congr 1; omega)
  · exact ite_blank_congr (by omega) (fun _ => rfl)
  · exact ite_blank_congr (by omega) (fun _ => rfl)
  · exact ite_blank_congr (by omega) (fun _ => rfl)
  · exact ite_blank_congr (by omega) (fun _ => rfl)

/-- C18 at the digits 0, 0, 0, 5, 0, 3 and the number 503, with the segment table of
the digits as encoder. -/
theorem leading_zero_suppression_witness :
    ((0 : Nat) ≤ 9 ∧ (5 : Nat) ≤ 9 ∧ (3 : Nat) ≤ 9 ∧ (503 : Nat) < 1000000) ∧
    (setDigitsWithLeadingZeroSuppression sampleEncodeDigit (0 : Nat) (0 : Nat) (0 : Nat)
        (5 : Nat) (0 : Nat) (3 : Nat) =
      [if (0 : Nat) = 0 then 0x00 else sampleEncodeDigit 0,
       if (0 : Nat) = 0 ∧ (0 : Nat) = 0 then 0x00 else sampleEncodeDigit 0,
       if (0 : Nat) = 0 ∧ (0 : Nat) = 0 ∧ (0 : Nat) = 0 then 0x00 else sampleEncodeDigit 0,
       if (0 : Nat) = 0 ∧ (0 : Nat) = 0 ∧ (0 : Nat) = 0 ∧ (5 : Nat) = 0 then 0x00
         else sampleEncodeDigit 5,
       if (0 : Nat) = 0 ∧ (0 : Nat) = 0 ∧ (0 : Nat) = 0 ∧ (5 : Nat) = 0 ∧ (0 : Nat) = 0
         then 0x00 else sampleEncodeDigit 0,
       sampleEncodeDigit 3] ∧
    displayTimer sampleEncodeDigit 0 0 12 =
      [0x00, 0x00, 0x00, 0x00, sampleEncodeDigit 1, sampleEncodeDigit 2] ∧
    displayTimer sampleEncodeDigit 0 5 3 =
      [0x00, 0x00, 0x00, sampleEncodeDigit 5, sampleEncodeDigit 0, sampleEncodeDigit 3] ∧
    displayNumber sampleEncodeDigit 503 =
      [if 503 < 100000 then 0x00 else sampleEncodeDigit (503 / 100000),
       if 503 < 10000 then 0x00 else sampleEncodeDigit (503 / 10000 % 10),
       if 503 < 1000 then 0x00 else sampleEncodeDigit (503 / 1000 % 10),
       if 503 < 100 then 0x00 else sampleEncodeDigit (503 / 100 % 10),
       if 503 < 10 then 0x00 else sampleEncodeDigit (503 / 10 % 10),
       sampleEncodeDigit (503 % 10)]) :=
  ⟨by decide, leading_zero_suppression sampleEncodeDigit 0 0 0 5 0 3 503 (by decide)
    (by decide) (by decide) (by decide) (by decide) (by decide) (by decide)⟩

/-- C19: for `hour24` in 0..23, `minute` and `second` in 0..59, `displayTime12Hour`
shows the hour `h` in 1..12 (12 when `hour24` is 0 or 12, else `hour24 mod 12`), then
the two minute digits and the two second digits, with only a leading zero of the
hour blanked; (12,34,56) shows 1,2,3,4,5,6 and (13,5,9) shows blank,1,0,5,0,9. -/
theorem displayTime12Hour_shows (encodeDigit : Nat → Nat) (hour24 minute second : Nat)
    (hh : hour24 ≤ 23) (hm : minute ≤ 59) (hs : second ≤ 59) :
    (1 ≤ clockHour hour24 ∧ clockHour hour24 ≤ 12) ∧
    displayTime12Hour encodeDigit hour24 minute second =
      [if clockHour hour24 < 10 then 0x00 else encodeDigit (clockHour hour24 / 10),
       encodeDigit (clockHour hour24 % 10),
       encodeDigit (minute / 10), encodeDigit (minute % 10),
       encodeDigit (second / 10), encodeDigit (second % 10)] ∧
    displayTime12Hour encodeDigit 12 34 56 =
      [encodeDigit 1, encodeDigit 2, encodeDigit 3, encodeDigit 4, encodeDigit 5,
        encodeDigit 6] ∧
    displayTime12Hour encodeDigit 13 5 9 =
      [0x00, encodeDigit 1, encodeDigit 0, encodeDigit 5, encodeDigit 0, encodeDigit 9] := by
  obtain ⟨hc1, hc2⟩ := clockHour_range hour24 hh
  refine ⟨⟨hc1, hc2⟩, ?_, rfl, rfl⟩
  rw [displayTime12Hour_natCast encodeDigit hour24 minute second hh]
  generalize clockHour hour24 = h at hc1 hc2 ⊢
  rw [setDigits_natCast encodeDigit _ _ _ _ _ _ (by omega) (by omega) (by omega) (by omega)
    (by omega) (by omega)]
  simp only [List.cons.injEq, and_true]
  refine ⟨?_, ?_, ?_, ?_, ?_⟩
  · exact ite_blank_congr (by omega) (fun _ => by congr 1; omega)
  · exact ite_blank_neg (by omega) rfl
  · exact ite_blank_neg (by omega) (by congr 1; omega)
  · exact ite_blank_neg (by omega) rfl
  · exact ite_blank_neg (by omega) (by congr 1; omega)

/-- C19 at 23:59:59, shown as 11 59 59. -/
theorem displayTime12Hour_shows_witness :
    ((23 : Nat) ≤ 23 ∧ (59 : Nat) ≤ 59) ∧
    ((1 ≤ clockHour 23 ∧ clockHour 23 ≤ 12) ∧
    displayTime12Hour sampleEncodeDigit (23 : Nat) (59 : Nat) (59 : Nat) =
      [if clockHour 23 < 10 then 0x00 else sampleEncodeDigit (clockHour 23 / 10),
       sampleEncodeDigit (clockHour 23 % 10),
       sampleEncodeDigit (59 / 10), sampleEncodeDigit (59 % 10),
       sampleEncodeDigit (59 / 10), sampleEncodeDigit (59 % 10)] ∧
    displayTime12Hour sampleEncodeDigit 12 34 56 =
      [sampleEncodeDigit 1, sampleEncodeDigit 2, sampleEncodeDigit 3, sampleEncodeDigit 4,
        sampleEncodeDigit 5, sampleEncodeDigit 6] ∧
    displayTime12Hour sampleEncodeDigit 13 5 9 =
      [0x00, sampleEncodeDigit 1, sampleEncodeDigit 0, sampleEncodeDigit 5,
        sampleEncodeDigit 0, sampleEncodeDigit 9]) :=
  ⟨by decide, displayTime12Hour_shows sampleEncodeDigit 23 59 59 (by decide) (by decide)
    (by decide)⟩

/-- C20 fails on the code: for the string "AB" stored as "AB", NUL, "CD", NUL, the
positions 3 and 4 after the string's end are not blank but show the segments of "C"
and "D", while the same string followed by zeros shows blanks there; the loop
blanks only the position of a NUL and reads on past the terminator. -/
theorem displayString_past_terminator (encodeDigit : Nat → Nat) :
    (strayBytes 2 = 0 ∧ ∀ i < 2, strayBytes i ≠ 0) ∧
    (∀ i ≤ 2, strayBytes i = cleanBytes i) ∧
    displayString encodeDigit strayBytes = [0x77, 0x7C, 0x00, 0x39, 0x5E, 0x00] ∧
    displayString encodeDigit cleanBytes = [0x77, 0x7C, 0x00, 0x00, 0x00, 0x00] ∧
    displayString encodeDigit strayBytes ≠ displayString encodeDigit cleanBytes := by
  have e1 : displayString encodeDigit strayBytes = [0x77, 0x7C, 0x00, 0x39, 0x5E, 0x00] := rfl
  have e2 : displayString encodeDigit cleanBytes = [0x77, 0x7C, 0x00, 0x00, 0x00, 0x00] := rfl
  refine ⟨by decide, by decide, e1, e2, ?_⟩
  rw [e1, e2]
  decide

/-! ## Claims on loading a saved record field by field -/

/-- After `saveConfig`, a field whose text fits its maximum loads as that text,
whatever the other fields are. -/
theorem loadConfig_saveConfig_fits (f : Field) (st : EEPROM) (config : DreamClockConfig)
    (ht : isText (f.get config)) (hl : (f.get config).length ≤ f.maxLength) :
    f.get (loadConfig (saveConfig st config)) = f.get config := by
  rw [loadConfig_field]
  cases f
  · rw [readString_congr _ (writeString st EEPROM_ADDR_SSID config.ssid) _ _ (fun j hj =>
      saveConfig_mem_low st config _
        (by simp only [Field.address, Field.maxLength, EEPROM_ADDR_SSID] at *; omega)
        (by simp only [Field.address, Field.maxLength, EEPROM_ADDR_SSID] at *; omega))]
    exact readString_writeString st _ 32 _ ht hl (by decide)
  · rw [readString_congr _ (writeString (writeString st EEPROM_ADDR_SSID config.ssid)
      EEPROM_ADDR_PASSWORD config.password) _ _ (fun j hj =>
      saveConfig_mem_mid st config _
        (by simp only [Field.address, Field.maxLength, EEPROM_ADDR_PASSWORD] at *; omega)
        (by simp only [Field.address, Field.maxLength, EEPROM_ADDR_PASSWORD] at *; omega))]
    exact readString_writeString _ _ 64 _ ht hl (by decide)
  · rw [readString_congr _ (saveFields st config) _ _ (fun j hj =>
      saveConfig_mem_high st config _
        (by simp only [Field.address, Field.maxLength, EEPROM_ADDR_TIMEZONE] at *; omega))]
    exact readString_writeString _ _ 50 _ ht hl (by decide)

/-- C21: for every initial memory and every record, `loadConfig()` after
`saveConfig(record)` returns for each field, whatever the other two fields are, the
saved text when its length is at most the field's maximum (32, 64, 50) and the
empty text otherwise, the stored length byte being `min(length, 255)`; so an
oversized earlier field does not change what a later field loads as. The field's
text is a `String` of the target: bytes, fewer than 2^31 of them. -/
theorem loadConfig_saveConfig_each_field (f : Field) (st : EEPROM)
    (config : DreamClockConfig) (ht : isText (f.get config))
    (h31 : (f.get config).length < 2147483648) :
    readByte (saveConfig st config) f.address = min (f.get config).length 255 ∧
    f.get (loadConfig (saveConfig st config)) =
      if (f.get config).length ≤ f.maxLength then f.get config else [] := by
  have hb : readByte (saveConfig st config) f.address = min (f.get config).length 255 := by
    rw [readByte_saveConfig_field, lengthByte_eq_min _ h31]
  refine ⟨hb, ?_⟩
  by_cases hl : (f.get config).length ≤ f.maxLength
  · rw [if_pos hl]
    exact loadConfig_saveConfig_fits f st config ht hl
  · rw [if_neg hl, loadConfig_field]
    apply readString_of_guard
    right
    rw [hb]
    have : f.maxLength ≤ 64 := by cases f <;> decide
    omega

/-- C21 at the password "pw" saved after a 120-byte ssid whose encoding runs over
the password's region: the password loads as saved. -/
theorem loadConfig_saveConfig_each_field_witness :
    (isText (Field.password.get overlapConfig) ∧
      (Field.password.get overlapConfig).length < 2147483648) ∧
    (readByte (saveConfig staleChip overlapConfig) Field.password.address =
        min (Field.password.get overlapConfig).length 255 ∧
      Field.password.get (loadConfig (saveConfig staleChip overlapConfig)) =
        if (Field.password.get overlapConfig).length ≤ Field.password.maxLength
        then Field.password.get overlapConfig else []) :=
  ⟨by decide, loadConfig_saveConfig_each_field Field.password staleChip overlapConfig
    (by decide) (by decide)⟩

/-! ## Claims on the flashing message -/

theorem toUnsignedLong_natCast (n : Nat) (h : n < 4294967296) :
    toUnsignedLong (n : Int) = n := by
  unfold toUnsignedLong; omega

/-- The index computed for in-range arguments with non-zero divisors. -/
theorem flashMessageIndex_eq (messageCount currentMillis flashInterval : Nat)
    (hc : 0 < messageCount) (hci : messageCount < 2147483648)
    (hi : 0 < flashInterval) (hil : flashInterval < 4294967296)
    (ht : currentMillis < 4294967296) :
    flashMessageIndex messageCount currentMillis flashInterval =
      some ((currentMillis / flashInterval % messageCount : Nat) : Int) := by
  have hlt : currentMillis / flashInterval % messageCount < messageCount := Nat.mod_lt _ hc
  unfold flashMessageIndex
  simp only [Nat.mod_eq_of_lt ht, Nat.mod_eq_of_lt hil,
    toUnsignedLong_natCast messageCount (by omega)]
  rw [if_neg (by omega), if_neg (by omega), toInt_of_lt _ (by omega)]

/-- C22: for `messageCount > 0`, `flashInterval > 0` and every `currentMillis` (an
`int` and two `unsigned long`s), `flashMessage` selects the message index
`(currentMillis / flashInterval) % messageCount`: both divisions have a non-zero
divisor, the index is below `messageCount`, so the access to an array of
`messageCount` messages is in bounds; in the window `k` of length `flashInterval`
the index is `k % messageCount`, and in the next window it is that plus one,
cyclically. -/
theorem flashMessage_index (messageCount currentMillis flashInterval : Nat)
    (hc : 0 < messageCount) (hci : messageCount < 2147483648)
    (hi : 0 < flashInterval) (hil : flashInterval < 4294967296)
    (ht : currentMillis < 4294967296) :
    flashMessageIndex messageCount currentMillis flashInterval =
      some ((currentMillis / flashInterval % messageCount : Nat) : Int) ∧
    currentMillis / flashInterval % messageCount < messageCount ∧
    (∀ (encodeDigit : Nat → Nat) (messages : List (Nat → Nat)),
      messages.length = messageCount →
      flashMessage encodeDigit messages messageCount currentMillis flashInterval =
        some (displayString encodeDigit
          (messages.getD (currentMillis / flashInterval % messageCount) (fun _ => 0)))) ∧
    (∀ k r, r < flashInterval → k * flashInterval + r < 4294967296 →
      flashMessageIndex messageCount (k * flashInterval + r) flashInterval =
        some ((k % messageCount : Nat) : Int)) ∧
    (∀ k r, r < flashInterval → (k + 1) * flashInterval + r < 4294967296 →
      flashMessageIndex messageCount ((k + 1) * flashInterval + r) flashInterval =
        some (((k % messageCount + 1) % messageCount : Nat) : Int)) := by
  have hlt : currentMillis / flashInterval % messageCount < messageCount := Nat.mod_lt _ hc
  have hwin : ∀ k r, r < flashInterval → k * flashInterval + r < 4294967296 →
      flashMessageIndex messageCount (k * flashInterval + r) flashInterval =
        some ((k % messageCount : Nat) : Int) := by
    intro k r hr hk
    rw [flashMessageIndex_eq _ _ _ hc hci hi hil hk, Nat.mul_comm k flashInterval,
      Nat.mul_add_div hi, Nat.div_eq_of_lt hr, Nat.add_zero]
  refine ⟨flashMessageIndex_eq _ _ _ hc hci hi hil ht, hlt, ?_, hwin, ?_⟩
  · intro encodeDigit messages hlen
    unfold flashMessage
    rw [flashMessageIndex_eq _ _ _ hc hci hi hil ht]
    simp only [Int.toNat_ofNat]
    rw [if_pos ⟨Int.ofNat_nonneg _, by omega⟩]
  · intro k r hr hk
    rw [hwin (k + 1) r hr hk, Nat.mod_add_mod]

/-- C22 at three messages, 2500 ms and an interval of 1000 ms: window 2, index 2. -/
theorem flashMessage_index_witness :
    ((0 : Nat) < 3 ∧ (3 : Nat) < 2147483648 ∧ (0 : Nat) < 1000 ∧
      (1000 : Nat) < 4294967296 ∧ (2500 : Nat) < 4294967296) ∧
    (flashMessageIndex (3 : Nat) 2500 1000 = some ((2500 / 1000 % 3 : Nat) : Int) ∧
    2500 / 1000 % 3 < 3 ∧
    (∀ (encodeDigit : Nat → Nat) (messages : List (Nat → Nat)),
      messages.length = 3 →
      flashMessage encodeDigit messages (3 : Nat) 2500 1000 =
        some (displayString encodeDigit
          (messages.getD (2500 / 1000 % 3) (fun _ => 0)))) ∧
    (∀ k r, r < 1000 → k * 1000 + r < 4294967296 →
      flashMessageIndex (3 : Nat) (k * 1000 + r) 1000 = some ((k % 3 : Nat) : Int)) ∧
    (∀ k r, r < 1000 → (k + 1) * 1000 + r < 4294967296 →
      flashMessageIndex (3 : Nat) ((k + 1) * 1000 + r) 1000 =
        some (((k % 3 + 1) % 3 : Nat) : Int))) :=
  ⟨by decide, flashMessage_index 3 2500 1000 (by decide) (by decide) (by decide)
    (by decide) (by decide)⟩

end DreamTimer
